import Mathlib

/-!
Verification of the atom-collision simulation (`Atoms.cpp`).

The C++ program stores atoms in a fixed array and advances them by discrete
ticks: an integration-plus-wall pass followed by a pairwise collision pass.
All numeric state is `double`; we model it over `ℝ`, with `atan2` modelled by
`Complex.arg` (both return the angle of the point `(x, y)` in `(-π, π]`, with
`atan2 0 0 = 0`).  The array-mutating loops are rendered as structurally
recursive functions over `List Atom` that thread the mutated elements exactly
as the loops do.
-/

open Real

/-- Window width (`const int W = 640`). -/
def W : ℝ := 640

/-- Window height (`const int H = 480`). -/
def H : ℝ := 480

/-- Default number of atoms (`const int DEFAULT_N = 10`). -/
def DEFAULT_N : Int := 10

/-- `struct Atom` from `Atoms.cpp`: color, radius, center position, velocity. -/
structure Atom where
  color : Int
  r : ℝ
  x : ℝ
  y : ℝ
  vx : ℝ
  vy : ℝ

/-- C's `atan2(y, x)`: the angle of the point `(x, y)`, in `(-π, π]`,
with `atan2 0 0 = 0`.  Modelled as `Complex.arg (x + y·i)`. -/
noncomputable def atan2 (y x : ℝ) : ℝ := Complex.arg ⟨x, y⟩

/-- One atom's integration-plus-wall step: the body of the first loop of
`update` (lines 193–217 of `Atoms.cpp`).  Position advances by the velocity,
then the four wall tests run in the source's order (left, right, top,
bottom), each test reading the possibly already clamped coordinate. -/
noncomputable def integrateWall (a : Atom) : Atom :=
  let x1 := a.x + a.vx
  let y1 := a.y + a.vy
  -- Left wall
  let x2 := if x1 - a.r ≤ 0 then a.r else x1
  let vx2 := if x1 - a.r ≤ 0 then -a.vx else a.vx
  -- Right wall
  let x3 := if x2 + a.r ≥ W then W - a.r else x2
  let vx3 := if x2 + a.r ≥ W then -vx2 else vx2
  -- Top wall
  let y2 := if y1 - a.r ≤ 0 then a.r else y1
  let vy2 := if y1 - a.r ≤ 0 then -a.vy else a.vy
  -- Bottom wall
  let y3 := if y2 + a.r ≥ H then H - a.r else y2
  let vy3 := if y2 + a.r ≥ H then -vy2 else vy2
  { a with x := x3, y := y3, vx := vx3, vy := vy3 }

/-- The velocity-resolution section of `update` (lines 233–276 of
`Atoms.cpp`): rotate so the tangent is horizontal, decompose, apply the 1-D
elastic formula on the vertical (normal) components with masses `r²`, and
recombine.  `dx, dy` are the center differences computed before the
positional correction, exactly as in the source.  Returns the two new
velocity vectors. -/
noncomputable def collideVel (dx dy : ℝ) (ai aj : Atom) : (ℝ × ℝ) × (ℝ × ℝ) :=
  let tx := -dy
  let ty := dx
  let a := atan2 ty tx
  let vi_speed := Real.sqrt (ai.vx * ai.vx + ai.vy * ai.vy)
  let vj_speed := Real.sqrt (aj.vx * aj.vx + aj.vy * aj.vy)
  let vi_angle := atan2 ai.vy ai.vx
  let vj_angle := atan2 aj.vy aj.vx
  let vi_rot_angle := vi_angle - a
  let vj_rot_angle := vj_angle - a
  let vi_horiz := vi_speed * Real.cos vi_rot_angle
  let vi_vert := vi_speed * Real.sin vi_rot_angle
  let vj_horiz := vj_speed * Real.cos vj_rot_angle
  let vj_vert := vj_speed * Real.sin vj_rot_angle
  let m1 := ai.r * ai.r
  let m2 := aj.r * aj.r
  let V_center := (m1 * vi_vert + m2 * vj_vert) / (m1 + m2)
  let vi_vert_new := 2 * V_center - vi_vert
  let vj_vert_new := 2 * V_center - vj_vert
  let vi_rot_speed_new := Real.sqrt (vi_horiz * vi_horiz + vi_vert_new * vi_vert_new)
  let vj_rot_speed_new := Real.sqrt (vj_horiz * vj_horiz + vj_vert_new * vj_vert_new)
  let vi_rot_angle_new := atan2 vi_vert_new vi_horiz
  let vj_rot_angle_new := atan2 vj_vert_new vj_horiz
  let vi_final_angle := vi_rot_angle_new + a
  let vj_final_angle := vj_rot_angle_new + a
  ((vi_rot_speed_new * Real.cos vi_final_angle,
    vi_rot_speed_new * Real.sin vi_final_angle),
   (vj_rot_speed_new * Real.cos vj_final_angle,
    vj_rot_speed_new * Real.sin vj_final_angle))

/-- One pair resolution: the body of the nested loop of `update`
(lines 222–276 of `Atoms.cpp`).  If the circles overlap, atom `j` is pushed
to tangency (with the `dist == 0` division guard) and both velocities are
replaced by the elastic-collision result; otherwise both atoms are
untouched. -/
noncomputable def resolvePair (ai aj : Atom) : Atom × Atom :=
  let dx := aj.x - ai.x
  let dy := aj.y - ai.y
  let dist := Real.sqrt (dx * dx + dy * dy)
  let sumR := ai.r + aj.r
  if dist < sumR then
    let overlap := sumR - dist
    let norm := if dist = 0 then 1 else dist
    let jx := aj.x + dx / norm * overlap
    let jy := aj.y + dy / norm * overlap
    let v := collideVel dx dy ai aj
    ({ ai with vx := v.1.1, vy := v.1.2 },
     { aj with x := jx, y := jy, vx := v.2.1, vy := v.2.2 })
  else (ai, aj)

/-- The inner loop of the pairwise pass for a fixed `i`: resolve atom `ai`
against each later atom in order, threading `ai`'s mutations exactly as the
array code does. -/
noncomputable def resolveWithRest : Atom → List Atom → Atom × List Atom
  | ai, [] => (ai, [])
  | ai, aj :: tl =>
    let p := resolvePair ai aj
    let q := resolveWithRest p.1 tl
    (q.1, p.2 :: q.2)

/-- `resolveWithRest` rewrites the tail element-by-element, keeping its
length. -/
theorem resolveWithRest_length (ai : Atom) (l : List Atom) :
    (resolveWithRest ai l).2.length = l.length := by
  induction l generalizing ai with
  | nil => rfl
  | cons aj tl ih => simp [resolveWithRest, ih]

/-- The outer loop of the pairwise pass (lines 220–279 of `Atoms.cpp`):
each atom is resolved against all later atoms, in index order, on the
already mutated array. -/
noncomputable def resolveAll : List Atom → List Atom
  | [] => []
  | a :: tl =>
    let q := resolveWithRest a tl
    q.1 :: resolveAll q.2
termination_by l => l.length
decreasing_by simp [resolveWithRest_length]

/-- `update` (lines 191–280 of `Atoms.cpp`): the integration-plus-wall pass
over every atom, then the pairwise collision pass. -/
noncomputable def update (atoms : List Atom) : List Atom :=
  resolveAll (atoms.map integrateWall)

/-! ### Initialization (`number`, lines 46–66, and `init`, lines 75–162).
A fatal error (`cerr` + `exit(1)`) is modelled as `Except.error` carrying
the exit status and the atom index named in the diagnostic; an error result
carries no atoms, matching the fact that no partial store survives
`exit`. -/

/-- A fatal initialization error: process exit status and the atom index
identified in the diagnostic message. -/
structure Fatal where
  code : Nat
  atomIdx : Nat

/-- `number`: with no argument the default count; with one argument the
first integer of the file (`none` = unreadable file, `some none` = no
numeric token, `some (some k)` = leading token `k`), rejecting failed
extraction and non-positive counts with exit status 1; with two or more
arguments `n` keeps its initial value `0`.  The successful value is also
what the final `cout << n` prints. -/
def number (argc : Nat) (file : Option (Option Int)) : Except Nat Int :=
  if argc = 1 then .ok DEFAULT_N
  else if argc = 2 then
    match file with
    | none => .error 1
    | some none => .error 1
    | some (some k) => if k ≤ 0 then .error 1 else .ok k
  else .ok 0

/-- One random attempt's draws: radius, position, speed, direction angle,
color.  (The C++ consumes speed/angle/color only on acceptance; a `Draw`
supplies all six since unconsumed values are never observable.) -/
structure Draw where
  r : ℝ
  x : ℝ
  y : ℝ
  speed : ℝ
  angle : ℝ
  color : Int

/-- The intersection test of `init` (lines 98–108): some already placed
atom is closer to `(x, y)` than the radius sum. -/
noncomputable def intersectsAny (placed : List Atom) (r x y : ℝ) : Prop :=
  ∃ b ∈ placed, Real.sqrt ((b.x - x) * (b.x - x) + (b.y - y) * (b.y - y)) < b.r + r

/-- The atom built from an accepted draw (lines 110–117). -/
noncomputable def drawAtom (d : Draw) : Atom :=
  ⟨d.color, d.r, d.x, d.y, d.speed * Real.cos d.angle, d.speed * Real.sin d.angle⟩

open Classical in
/-- The 3-attempt placement loop for one atom (lines 88–121): the first
non-intersecting draw is accepted; `none` after three failures.  Returns
the placed atom and the advanced draw cursor. -/
noncomputable def tryPlace (draws : Nat → Draw) (placed : List Atom) (k : Nat) :
    Option (Atom × Nat) :=
  if ¬ intersectsAny placed (draws k).r (draws k).x (draws k).y then
    some (drawAtom (draws k), k + 1)
  else if ¬ intersectsAny placed (draws (k + 1)).r (draws (k + 1)).x (draws (k + 1)).y then
    some (drawAtom (draws (k + 1)), k + 2)
  else if ¬ intersectsAny placed (draws (k + 2)).r (draws (k + 2)).x (draws (k + 2)).y then
    some (drawAtom (draws (k + 2)), k + 3)
  else none

/-- The random-mode placement loop (lines 87–127): `m` atoms left to place,
`i` the next atom's index; a failed placement aborts with exit status 1
naming index `i`. -/
noncomputable def placeLoop (draws : Nat → Draw) :
    Nat → Nat → List Atom → Nat → Except Fatal (List Atom)
  | 0, _, placed, _ => .ok placed
  | m + 1, i, placed, k =>
    match tryPlace draws placed k with
    | none => .error ⟨1, i⟩
    | some (a, k2) => placeLoop draws m (i + 1) (placed ++ [a]) k2

/-- Random-mode initialization of `n` atoms. -/
noncomputable def initRandom (n : Nat) (draws : Nat → Draw) : Except Fatal (List Atom) :=
  placeLoop draws n 0 [] 0

/-- The record-load loop (lines 137–151): `recs` holds the parsed
six-field records, `none` marking a record whose stream extraction fails;
`List.get?` past the end models an exhausted stream (extraction also
fails).  The loop aborts at the first bad record among `0..n-1` with exit
status 1 naming its index. -/
def loadLoop (recs : List (Option Atom)) : Nat → Nat → Except Fatal (List Atom)
  | 0, _ => .ok []
  | m + 1, i =>
    match recs[i]? with
    | some (some a) =>
      match loadLoop recs m (i + 1) with
      | .ok rest => .ok (a :: rest)
      | .error e => .error e
    | _ => .error ⟨1, i⟩

/-- Record-load initialization of `n` atoms. -/
def initLoad (n : Nat) (recs : List (Option Atom)) : Except Fatal (List Atom) :=
  loadLoop recs n 0

/-- `init` (lines 75–162): random mode when `argc = 1`, record-load mode
when `argc = 2`; any other `argc` skips both branches and leaves the
freshly allocated buffer `buf` untouched. -/
noncomputable def init (argc n : Nat) (draws : Nat → Draw)
    (recs : List (Option Atom)) (buf : List Atom) : Except Fatal (List Atom) :=
  if argc = 1 then initRandom n draws
  else if argc = 2 then initLoad n recs
  else .ok buf

/-! ### Checked semantics: every division must have a nonzero divisor.
`none` plays the role of a runtime arithmetic error; the spec claims this
branch is unreachable for stores of positive-radius atoms. -/

/-- Division returning `none` when the divisor is zero. -/
noncomputable def divE (x y : ℝ) : Option ℝ :=
  if y = 0 then none else some (x / y)

/-- `collideVel` in the checked semantics: its one division is the
center-of-mass velocity `(m1*vi_vert + m2*vj_vert) / (m1 + m2)`. -/
noncomputable def collideVelE (dx dy : ℝ) (ai aj : Atom) :
    Option ((ℝ × ℝ) × (ℝ × ℝ)) :=
  let tx := -dy
  let ty := dx
  let a := atan2 ty tx
  let vi_speed := Real.sqrt (ai.vx * ai.vx + ai.vy * ai.vy)
  let vj_speed := Real.sqrt (aj.vx * aj.vx + aj.vy * aj.vy)
  let vi_angle := atan2 ai.vy ai.vx
  let vj_angle := atan2 aj.vy aj.vx
  let vi_rot_angle := vi_angle - a
  let vj_rot_angle := vj_angle - a
  let vi_horiz := vi_speed * Real.cos vi_rot_angle
  let vi_vert := vi_speed * Real.sin vi_rot_angle
  let vj_horiz := vj_speed * Real.cos vj_rot_angle
  let vj_vert := vj_speed * Real.sin vj_rot_angle
  let m1 := ai.r * ai.r
  let m2 := aj.r * aj.r
  (divE (m1 * vi_vert + m2 * vj_vert) (m1 + m2)).bind fun V_center =>
  let vi_vert_new := 2 * V_center - vi_vert
  let vj_vert_new := 2 * V_center - vj_vert
  let vi_rot_speed_new := Real.sqrt (vi_horiz * vi_horiz + vi_vert_new * vi_vert_new)
  let vj_rot_speed_new := Real.sqrt (vj_horiz * vj_horiz + vj_vert_new * vj_vert_new)
  let vi_rot_angle_new := atan2 vi_vert_new vi_horiz
  let vj_rot_angle_new := atan2 vj_vert_new vj_horiz
  let vi_final_angle := vi_rot_angle_new + a
  let vj_final_angle := vj_rot_angle_new + a
  some ((vi_rot_speed_new * Real.cos vi_final_angle,
         vi_rot_speed_new * Real.sin vi_final_angle),
        (vj_rot_speed_new * Real.cos vj_final_angle,
         vj_rot_speed_new * Real.sin vj_final_angle))

/-- `resolvePair` in the checked semantics: the divisions `dx/norm` and
`dy/norm` are checked, then the velocity resolution. -/
noncomputable def resolvePairE (ai aj : Atom) : Option (Atom × Atom) :=
  let dx := aj.x - ai.x
  let dy := aj.y - ai.y
  let dist := Real.sqrt (dx * dx + dy * dy)
  let sumR := ai.r + aj.r
  if dist < sumR then
    let overlap := sumR - dist
    let norm := if dist = 0 then 1 else dist
    (divE dx norm).bind fun cx =>
    (divE dy norm).bind fun cy =>
    let jx := aj.x + cx * overlap
    let jy := aj.y + cy * overlap
    (collideVelE dx dy ai aj).bind fun v =>
    some ({ ai with vx := v.1.1, vy := v.1.2 },
          { aj with x := jx, y := jy, vx := v.2.1, vy := v.2.2 })
  else some (ai, aj)

/-- Checked inner pairwise loop. -/
noncomputable def resolveWithRestE : Atom → List Atom → Option (Atom × List Atom)
  | ai, [] => some (ai, [])
  | ai, aj :: tl =>
    (resolvePairE ai aj).bind fun p =>
    (resolveWithRestE p.1 tl).bind fun q =>
    some (q.1, p.2 :: q.2)

/-- A successful checked inner loop keeps the tail's length. -/
theorem resolveWithRestE_length : ∀ (l : List Atom) (ai : Atom) (p : Atom × List Atom),
    resolveWithRestE ai l = some p → p.2.length = l.length := by
  intro l
  induction l with
  | nil =>
    intro ai p hp
    simp only [resolveWithRestE, Option.some.injEq] at hp
    rw [← hp]
  | cons aj tl ih =>
    intro ai p hp
    simp only [resolveWithRestE, Option.bind_eq_some, Option.some.injEq] at hp
    obtain ⟨p1, hp1, q1, hq1, rfl⟩ := hp
    have := ih p1.1 q1 hq1
    simp [this]

/-- Checked outer pairwise loop. -/
noncomputable def resolveAllE : List Atom → Option (List Atom)
  | [] => some []
  | a :: tl =>
    match hq : resolveWithRestE a tl with
    | none => none
    | some q =>
      match resolveAllE q.2 with
      | none => none
      | some rest => some (q.1 :: rest)
termination_by l => l.length
decreasing_by simp [resolveWithRestE_length tl a q hq]

/-- `update` in the checked semantics. -/
noncomputable def updateE (atoms : List Atom) : Option (List Atom) :=
  resolveAllE (atoms.map integrateWall)

/-! ### Spec-side geometric vocabulary (§4.2 of the spec): center distance,
unit collision normal and tangent, and the two-body center-of-mass velocity
`V_com` along the normal, with area-proportional masses `m = r²`. -/

/-- Euclidean distance between the two atoms' centers. -/
noncomputable def centerDist (ai aj : Atom) : ℝ :=
  Real.sqrt ((aj.x - ai.x) * (aj.x - ai.x) + (aj.y - ai.y) * (aj.y - ai.y))

/-- Dot product on the plane. -/
def dot (u v : ℝ × ℝ) : ℝ := u.1 * v.1 + u.2 * v.2

/-- An atom's velocity vector. -/
def vel (a : Atom) : ℝ × ℝ := (a.vx, a.vy)

/-- Unit collision normal: along the line from `i`'s center to `j`'s. -/
noncomputable def normalUnit (ai aj : Atom) : ℝ × ℝ :=
  ((aj.x - ai.x) / centerDist ai aj, (aj.y - ai.y) / centerDist ai aj)

/-- Unit tangent axis: perpendicular to the line joining the centers. -/
noncomputable def tangentUnit (ai aj : Atom) : ℝ × ℝ :=
  (-(aj.y - ai.y) / centerDist ai aj, (aj.x - ai.x) / centerDist ai aj)

/-- The spec's `V_com`: the mass-weighted mean of the two normal velocity
components, with masses `m_i = r_i²`, `m_j = r_j²`. -/
noncomputable def vCom (ai aj : Atom) : ℝ :=
  (ai.r * ai.r * dot (vel ai) (normalUnit ai aj) +
     aj.r * aj.r * dot (vel aj) (normalUnit ai aj)) /
    (ai.r * ai.r + aj.r * aj.r)

/-! ### Polar-coordinate identities for the rotate–decompose–recombine code -/

theorem complexAbs_mk (px py : ℝ) :
    Complex.abs ⟨px, py⟩ = Real.sqrt (px * px + py * py) := by
  rw [Complex.abs_apply, Complex.normSq_mk]

theorem polar_cos (px py a : ℝ) :
    Real.sqrt (px * px + py * py) * Real.cos (atan2 py px - a)
      = px * Real.cos a + py * Real.sin a := by
  by_cases h : (⟨px, py⟩ : ℂ) = 0
  · have hx : px = 0 := congrArg Complex.re h
    have hy : py = 0 := congrArg Complex.im h
    simp [hx, hy]
  · have habs : Complex.abs ⟨px, py⟩ = Real.sqrt (px * px + py * py) :=
      complexAbs_mk px py
    have hne : Real.sqrt (px * px + py * py) ≠ 0 := by
      rw [← habs]; simpa using h
    rw [atan2, Real.cos_sub, Complex.cos_arg h, Complex.sin_arg, habs]
    field_simp

theorem polar_sin (px py a : ℝ) :
    Real.sqrt (px * px + py * py) * Real.sin (atan2 py px - a)
      = py * Real.cos a - px * Real.sin a := by
  by_cases h : (⟨px, py⟩ : ℂ) = 0
  · have hx : px = 0 := congrArg Complex.re h
    have hy : py = 0 := congrArg Complex.im h
    simp [hx, hy]
  · have habs : Complex.abs ⟨px, py⟩ = Real.sqrt (px * px + py * py) :=
      complexAbs_mk px py
    have hne : Real.sqrt (px * px + py * py) ≠ 0 := by
      rw [← habs]; simpa using h
    rw [atan2, Real.sin_sub, Complex.cos_arg h, Complex.sin_arg, habs]
    field_simp

theorem polar_cos_add (px py a : ℝ) :
    Real.sqrt (px * px + py * py) * Real.cos (atan2 py px + a)
      = px * Real.cos a - py * Real.sin a := by
  have := polar_cos px py (-a)
  simpa [sub_neg_eq_add] using this

theorem polar_sin_add (px py a : ℝ) :
    Real.sqrt (px * px + py * py) * Real.sin (atan2 py px + a)
      = py * Real.cos a + px * Real.sin a := by
  have := polar_sin px py (-a)
  simpa [sub_neg_eq_add] using this

/-- Closed form of `collideVel`: writing `c, s` for the cosine and sine of
the tangent angle `a = atan2 dx (-dy)`, the rotate–decompose–recombine
pipeline yields, for each atom, the unchanged horizontal (tangential)
component `h` and the new vertical (normal) component `2·Vc − w`, recombined
along the rotated axes. -/
theorem collideVel_eq (dx dy : ℝ) (ai aj : Atom) (c s h1 w1 h2 w2 Vc : ℝ)
    (hc : c = Real.cos (atan2 dx (-dy))) (hs : s = Real.sin (atan2 dx (-dy)))
    (hh1 : h1 = ai.vx * c + ai.vy * s) (hw1 : w1 = ai.vy * c - ai.vx * s)
    (hh2 : h2 = aj.vx * c + aj.vy * s) (hw2 : w2 = aj.vy * c - aj.vx * s)
    (hVc : Vc = (ai.r * ai.r * w1 + aj.r * aj.r * w2) / (ai.r * ai.r + aj.r * aj.r)) :
    collideVel dx dy ai aj =
      ((h1 * c - (2 * Vc - w1) * s, (2 * Vc - w1) * c + h1 * s),
       (h2 * c - (2 * Vc - w2) * s, (2 * Vc - w2) * c + h2 * s)) := by
  subst hc hs hh1 hw1 hh2 hw2 hVc
  simp only [collideVel]
  simp only [polar_cos, polar_sin, polar_cos_add, polar_sin_add]

/-- Cosine/sine of the code's tangent angle `a = atan2 dx (-dy)`: the unit
tangent vector is `(-dy, dx) / d`, `d` the center distance. -/
theorem cos_sin_tangent (dx dy : ℝ)
    (hd : Real.sqrt (dx * dx + dy * dy) ≠ 0) :
    Real.cos (atan2 dx (-dy)) = -dy / Real.sqrt (dx * dx + dy * dy) ∧
    Real.sin (atan2 dx (-dy)) = dx / Real.sqrt (dx * dx + dy * dy) := by
  have habs : Complex.abs ⟨-dy, dx⟩ = Real.sqrt (dx * dx + dy * dy) := by
    rw [complexAbs_mk]
    congr 1
    ring
  have hz : (⟨-dy, dx⟩ : ℂ) ≠ 0 := by
    intro h0
    apply hd
    rw [← habs, h0]
    simp
  constructor
  · rw [atan2, Complex.cos_arg hz, habs]
  · rw [atan2, Complex.sin_arg, habs]

/-- **C6.**  In `update`'s per-atom integration-plus-wall pass, for every
atom and each axis independently: after `position += velocity`, if the
circle's leading edge has reached or passed a wall (`center - radius ≤ 0`,
or `center + radius ≥ W` resp. `H`), the center is clamped to the exact
tangent position (`radius`, or `extent - radius`) and that axis's velocity
component is negated; in particular a single atom at `(5,100)` with radius
10 and velocity `(-2,0)` ends the tick with `x = 10` and `vx = +2`. -/
theorem C6_wall_clamp (a : Atom) (hr : 0 < a.r) (hW : 2 * a.r < W)
    (hH : 2 * a.r < H) :
    ((a.x + a.vx - a.r ≤ 0 →
        (integrateWall a).x = a.r ∧ (integrateWall a).vx = -a.vx) ∧
     (a.x + a.vx + a.r ≥ W →
        (integrateWall a).x = W - a.r ∧ (integrateWall a).vx = -a.vx) ∧
     (a.y + a.vy - a.r ≤ 0 →
        (integrateWall a).y = a.r ∧ (integrateWall a).vy = -a.vy) ∧
     (a.y + a.vy + a.r ≥ H →
        (integrateWall a).y = H - a.r ∧ (integrateWall a).vy = -a.vy)) ∧
    update [⟨0, 10, 5, 100, -2, 0⟩] = [⟨0, 10, 10, 100, 2, 0⟩] := by
  constructor
  · simp only [integrateWall]
    refine ⟨?_, ?_, ?_, ?_⟩ <;> intro hcond <;> split_ifs <;>
      simp_all <;> linarith
  · simp only [update, List.map, integrateWall, resolveAll, resolveWithRest]
    norm_num [W, H]

/-- Witness for C6: the spec's scenario atom, hypotheses discharged
numerically. -/
theorem C6_wall_clamp_witness :
    update [⟨0, 10, 5, 100, -2, 0⟩] = [⟨0, 10, 10, 100, 2, 0⟩] :=
  (C6_wall_clamp ⟨0, 10, 5, 100, -2, 0⟩ (by norm_num) (by norm_num [W])
    (by norm_num [H])).2

/-- An atom that triggers no wall test just translates by its velocity. -/
theorem integrateWall_free (a : Atom)
    (h1 : ¬(a.x + a.vx - a.r ≤ 0)) (h2 : ¬(a.x + a.vx + a.r ≥ W))
    (h3 : ¬(a.y + a.vy - a.r ≤ 0)) (h4 : ¬(a.y + a.vy + a.r ≥ H)) :
    integrateWall a = { a with x := a.x + a.vx, y := a.y + a.vy } := by
  simp only [integrateWall, if_neg h1, if_neg h3, if_neg h2, if_neg h4]

/-- With both incoming velocities zero, the velocity-resolution pipeline
returns zero velocities. -/
theorem collideVel_zero (dx dy : ℝ) (ai aj : Atom)
    (hvi1 : ai.vx = 0) (hvi2 : ai.vy = 0) (hvj1 : aj.vx = 0) (hvj2 : aj.vy = 0) :
    collideVel dx dy ai aj = ((0, 0), (0, 0)) := by
  rw [collideVel_eq dx dy ai aj _ _ _ _ _ _ _ rfl rfl rfl rfl rfl rfl rfl]
  rw [hvi1, hvi2, hvj1, hvj2]
  simp

/-- Pair resolution with zero velocities and distinct overlapping centers:
atom `i` is untouched and atom `j` is displaced along the center line. -/
theorem resolvePair_zero_vel (ai aj : Atom) (d : ℝ)
    (hvi1 : ai.vx = 0) (hvi2 : ai.vy = 0) (hvj1 : aj.vx = 0) (hvj2 : aj.vy = 0)
    (hd : Real.sqrt ((aj.x - ai.x) * (aj.x - ai.x) + (aj.y - ai.y) * (aj.y - ai.y)) = d)
    (hlt : d < ai.r + aj.r) (hdz : d ≠ 0) :
    resolvePair ai aj =
      (ai, { aj with x := aj.x + (aj.x - ai.x) / d * (ai.r + aj.r - d),
                     y := aj.y + (aj.y - ai.y) / d * (ai.r + aj.r - d) }) := by
  have hvel := collideVel_zero (aj.x - ai.x) (aj.y - ai.y) ai aj hvi1 hvi2 hvj1 hvj2
  simp only [resolvePair, hd, if_pos hlt, if_neg hdz, hvel]
  simp only [Prod.mk.injEq]
  constructor
  · cases ai
    simp_all
  · cases aj
    simp_all

/-- **C1, counterexample.**  A valid two-atom store (both circles inside the
window, positive radii, zero velocities) for which `update` ends with atom 1
at `x = 630` of radius 20, so its bounding circle leaves the window
(`630 > W - 20`): the pairwise correction runs after the wall pass and can
push an atom outside. -/
theorem C1_counterexample :
    (∀ a ∈ [(⟨1, 10, 600, 100, 0, 0⟩ : Atom), ⟨2, 20, 615, 100, 0, 0⟩],
        0 < a.r ∧ a.r ≤ a.x ∧ a.x ≤ W - a.r ∧ a.r ≤ a.y ∧ a.y ≤ H - a.r) ∧
    update [⟨1, 10, 600, 100, 0, 0⟩, ⟨2, 20, 615, 100, 0, 0⟩]
      = [⟨1, 10, 600, 100, 0, 0⟩, ⟨2, 20, 630, 100, 0, 0⟩] ∧
    ¬ ((630 : ℝ) ≤ W - 20) := by
  refine ⟨?_, ?_, ?_⟩
  · intro a ha
    simp only [List.mem_cons, List.not_mem_nil, or_false] at ha
    rcases ha with rfl | rfl
    · norm_num [W, H]
    · norm_num [W, H]
  · have hA : integrateWall ⟨1, 10, 600, 100, 0, 0⟩ = ⟨1, 10, 600, 100, 0, 0⟩ := by
      rw [integrateWall_free] <;> norm_num [W, H, Atom.mk.injEq]
    have hB : integrateWall ⟨2, 20, 615, 100, 0, 0⟩ = ⟨2, 20, 615, 100, 0, 0⟩ := by
      rw [integrateWall_free] <;> norm_num [W, H, Atom.mk.injEq]
    have hpair : resolvePair ⟨1, 10, 600, 100, 0, 0⟩ ⟨2, 20, 615, 100, 0, 0⟩
        = (⟨1, 10, 600, 100, 0, 0⟩, ⟨2, 20, 630, 100, 0, 0⟩) := by
      rw [resolvePair_zero_vel ⟨1, 10, 600, 100, 0, 0⟩ ⟨2, 20, 615, 100, 0, 0⟩ 15
        rfl rfl rfl rfl ?_ (by norm_num) (by norm_num)]
      · norm_num [Atom.mk.injEq]
      · show Real.sqrt ((615 - 600) * (615 - 600) + (100 - 100) * (100 - 100)) = 15
        rw [show ((615 - 600) * (615 - 600) + (100 - 100) * (100 - 100) : ℝ)
              = 15 * 15 by norm_num]
        exact Real.sqrt_mul_self (by norm_num)
    simp only [update, List.map, hA, hB, resolveAll, resolveWithRest, hpair]
  · norm_num [W]

/-- After the integration-plus-wall pass, an atom whose circle fits in the
window (`2r ≤ W`, `2r ≤ H`) satisfies the bounds, whatever its incoming
position and velocity. -/
theorem integrateWall_bounds (a : Atom) (hr : 0 < a.r) (hW : 2 * a.r ≤ W)
    (hH : 2 * a.r ≤ H) :
    a.r ≤ (integrateWall a).x ∧ (integrateWall a).x ≤ W - a.r ∧
    a.r ≤ (integrateWall a).y ∧ (integrateWall a).y ≤ H - a.r := by
  simp only [integrateWall]
  refine ⟨?_, ?_, ?_, ?_⟩ <;> split_ifs <;> simp_all <;> linarith

/-- **C1, amended.**  For every valid atom store (all atoms within bounds,
positive radii), every atom satisfies the bounds invariant after the
integration-plus-wall pass of `update`; the subsequent pairwise-collision
correction can move an atom back outside the window
(see the counterexample), so the invariant is *not* guaranteed once
`update` completes. -/
theorem C1_wall_pass_bounds (atoms : List Atom)
    (hv : ∀ a ∈ atoms,
        0 < a.r ∧ a.r ≤ a.x ∧ a.x ≤ W - a.r ∧ a.r ≤ a.y ∧ a.y ≤ H - a.r) :
    ∀ b ∈ atoms.map integrateWall,
      b.r ≤ b.x ∧ b.x ≤ W - b.r ∧ b.r ≤ b.y ∧ b.y ≤ H - b.r := by
  intro b hb
  rcases List.mem_map.1 hb with ⟨a, ha, rfl⟩
  obtain ⟨hr, hx1, hx2, hy1, hy2⟩ := hv a ha
  have hrr : (integrateWall a).r = a.r := rfl
  have := integrateWall_bounds a hr (by linarith) (by linarith)
  rw [hrr]
  exact this

/-- Witness for the amended C1 at a concrete one-atom store. -/
theorem C1_wall_pass_bounds_witness :
    (integrateWall ⟨0, 10, 50, 100, -2, 0⟩).r ≤ (integrateWall ⟨0, 10, 50, 100, -2, 0⟩).x ∧
    (integrateWall ⟨0, 10, 50, 100, -2, 0⟩).x ≤ W - (integrateWall ⟨0, 10, 50, 100, -2, 0⟩).r ∧
    (integrateWall ⟨0, 10, 50, 100, -2, 0⟩).r ≤ (integrateWall ⟨0, 10, 50, 100, -2, 0⟩).y ∧
    (integrateWall ⟨0, 10, 50, 100, -2, 0⟩).y ≤ H - (integrateWall ⟨0, 10, 50, 100, -2, 0⟩).r := by
  have hv : ∀ a ∈ [(⟨0, 10, 50, 100, -2, 0⟩ : Atom)],
      0 < a.r ∧ a.r ≤ a.x ∧ a.x ≤ W - a.r ∧ a.r ≤ a.y ∧ a.y ≤ H - a.r := by
    intro a ha
    simp only [List.mem_cons, List.not_mem_nil, or_false] at ha
    subst ha
    norm_num [W, H]
  exact C1_wall_pass_bounds [⟨0, 10, 50, 100, -2, 0⟩] hv
    (integrateWall ⟨0, 10, 50, 100, -2, 0⟩) (by simp)

/-- Coincident overlapping centers: the `dist == 0` guard sets `norm = 1`,
but the displacement `(dx/norm)·overlap` is then `0·overlap = 0`, so neither
atom's position changes. -/
theorem resolvePair_coincident (ai aj : Atom) (hx : aj.x = ai.x)
    (hy : aj.y = ai.y) (hs : 0 < ai.r + aj.r) :
    (resolvePair ai aj).1.x = ai.x ∧ (resolvePair ai aj).1.y = ai.y ∧
    (resolvePair ai aj).2.x = aj.x ∧ (resolvePair ai aj).2.y = aj.y := by
  have hdx : aj.x - ai.x = 0 := by rw [hx]; ring
  have hdy : aj.y - ai.y = 0 := by rw [hy]; ring
  simp only [resolvePair, hdx, hdy]
  norm_num [Real.sqrt_zero, hs]

/-- Coincident overlapping centers with zero velocities: the pair is
returned entirely unchanged. -/
theorem resolvePair_coincident_zero_vel (ai aj : Atom)
    (hvi1 : ai.vx = 0) (hvi2 : ai.vy = 0) (hvj1 : aj.vx = 0) (hvj2 : aj.vy = 0)
    (hx : aj.x = ai.x) (hy : aj.y = ai.y) (hs : 0 < ai.r + aj.r) :
    resolvePair ai aj = (ai, aj) := by
  have hdx : aj.x - ai.x = 0 := by rw [hx]; ring
  have hdy : aj.y - ai.y = 0 := by rw [hy]; ring
  have hvel0 : collideVel 0 0 ai aj = ((0, 0), (0, 0)) :=
    collideVel_zero 0 0 ai aj hvi1 hvi2 hvj1 hvj2
  simp only [resolvePair, hdx, hdy, hvel0]
  norm_num [Real.sqrt_zero, hs]
  constructor
  · cases ai
    simp_all
  · cases aj
    simp_all

/-- **C2, counterexample.**  Two exactly coincident atoms (`d = 0 < r_i +
r_j`, zero velocities): `update` leaves both centers at `(100, 100)` — the
pair is *not* separated along a fixed unit axis; the centers remain
coincident after the pair is resolved. -/
theorem C2_counterexample :
    Real.sqrt (((100 : ℝ) - 100) * (100 - 100) + ((100 : ℝ) - 100) * (100 - 100)) = 0 ∧
    (0 : ℝ) < 10 + 10 ∧
    update [⟨1, 10, 100, 100, 0, 0⟩, ⟨2, 10, 100, 100, 0, 0⟩]
      = [⟨1, 10, 100, 100, 0, 0⟩, ⟨2, 10, 100, 100, 0, 0⟩] := by
  refine ⟨by norm_num, by norm_num, ?_⟩
  have hA : integrateWall ⟨1, 10, 100, 100, 0, 0⟩ = ⟨1, 10, 100, 100, 0, 0⟩ := by
    rw [integrateWall_free] <;> norm_num [W, H, Atom.mk.injEq]
  have hB : integrateWall ⟨2, 10, 100, 100, 0, 0⟩ = ⟨2, 10, 100, 100, 0, 0⟩ := by
    rw [integrateWall_free] <;> norm_num [W, H, Atom.mk.injEq]
  have hpair : resolvePair ⟨1, 10, 100, 100, 0, 0⟩ ⟨2, 10, 100, 100, 0, 0⟩
      = (⟨1, 10, 100, 100, 0, 0⟩, ⟨2, 10, 100, 100, 0, 0⟩) :=
    resolvePair_coincident_zero_vel _ _ rfl rfl rfl rfl rfl rfl (by norm_num)
  simp only [update, List.map, hA, hB, resolveAll, resolveWithRest, hpair]

/-- **C2, amended.**  In `update`'s pairwise resolution, for a pair whose
centers coincide exactly (`d = 0 < r_i + r_j`), the `norm = 1` guard only
prevents a division by zero: the displacement applied to atom `j` is
`(0/1)·overlap = 0`, so both positions are unchanged and the centers remain
coincident after resolving the pair. -/
theorem C2_coincident_unchanged (ai aj : Atom) (hx : aj.x = ai.x)
    (hy : aj.y = ai.y) (hs : 0 < ai.r + aj.r) :
    (resolvePair ai aj).1.x = ai.x ∧ (resolvePair ai aj).1.y = ai.y ∧
    (resolvePair ai aj).2.x = aj.x ∧ (resolvePair ai aj).2.y = aj.y :=
  resolvePair_coincident ai aj hx hy hs

/-- Witness for the amended C2: a coincident pair with nonzero velocities;
positions survive unchanged. -/
theorem C2_coincident_unchanged_witness :
    (resolvePair ⟨1, 10, 100, 100, 3, 4⟩ ⟨2, 10, 100, 100, -1, 2⟩).1.x = (100 : ℝ) ∧
    (resolvePair ⟨1, 10, 100, 100, 3, 4⟩ ⟨2, 10, 100, 100, -1, 2⟩).1.y = (100 : ℝ) ∧
    (resolvePair ⟨1, 10, 100, 100, 3, 4⟩ ⟨2, 10, 100, 100, -1, 2⟩).2.x = (100 : ℝ) ∧
    (resolvePair ⟨1, 10, 100, 100, 3, 4⟩ ⟨2, 10, 100, 100, -1, 2⟩).2.y = (100 : ℝ) :=
  C2_coincident_unchanged ⟨1, 10, 100, 100, 3, 4⟩ ⟨2, 10, 100, 100, -1, 2⟩
    rfl rfl (by norm_num)

/-- **C3.**  In `update`'s pairwise resolution, for a pair whose center
distance `d` satisfies `0 < d < r_i + r_j`, the positional correction leaves
atom `i`'s position unchanged and pushes atom `j` along the line from `i`'s
center to `j`'s center by exactly `r_i + r_j − d`; immediately afterwards
the center distance is exactly `r_i + r_j`. -/
theorem C3_tangency (ai aj : Atom) (d : ℝ)
    (hd : Real.sqrt ((aj.x - ai.x) * (aj.x - ai.x) + (aj.y - ai.y) * (aj.y - ai.y)) = d)
    (hd0 : 0 < d) (hlt : d < ai.r + aj.r) :
    (resolvePair ai aj).1.x = ai.x ∧ (resolvePair ai aj).1.y = ai.y ∧
    (resolvePair ai aj).2.x = aj.x + (aj.x - ai.x) / d * (ai.r + aj.r - d) ∧
    (resolvePair ai aj).2.y = aj.y + (aj.y - ai.y) / d * (ai.r + aj.r - d) ∧
    Real.sqrt
      (((resolvePair ai aj).2.x - (resolvePair ai aj).1.x) *
         ((resolvePair ai aj).2.x - (resolvePair ai aj).1.x) +
       ((resolvePair ai aj).2.y - (resolvePair ai aj).1.y) *
         ((resolvePair ai aj).2.y - (resolvePair ai aj).1.y))
      = ai.r + aj.r := by
  have hne : d ≠ 0 := ne_of_gt hd0
  have hX : (aj.x - ai.x) * (aj.x - ai.x) + (aj.y - ai.y) * (aj.y - ai.y) = d * d := by
    rw [← hd]
    exact (Real.mul_self_sqrt (add_nonneg (mul_self_nonneg _) (mul_self_nonneg _))).symm
  simp only [resolvePair, hd, if_pos hlt, if_neg hne]
  refine ⟨trivial, trivial, trivial, trivial, ?_⟩
  have harg :
      (aj.x + (aj.x - ai.x) / d * (ai.r + aj.r - d) - ai.x) *
        (aj.x + (aj.x - ai.x) / d * (ai.r + aj.r - d) - ai.x) +
      (aj.y + (aj.y - ai.y) / d * (ai.r + aj.r - d) - ai.y) *
        (aj.y + (aj.y - ai.y) / d * (ai.r + aj.r - d) - ai.y)
      = (ai.r + aj.r) * (ai.r + aj.r) := by
    field_simp
    nlinarith [hX]
  rw [harg]
  exact Real.sqrt_mul_self (by linarith)

/-- Witness for C3: the spec's scenario pair at distance 18, radii 10 and
10; after the correction the centers are exactly 20 apart. -/
theorem C3_tangency_witness :
    Real.sqrt
      (((resolvePair ⟨1, 10, 100, 100, 1, 0⟩ ⟨2, 10, 118, 100, -1, 0⟩).2.x -
          (resolvePair ⟨1, 10, 100, 100, 1, 0⟩ ⟨2, 10, 118, 100, -1, 0⟩).1.x) *
         ((resolvePair ⟨1, 10, 100, 100, 1, 0⟩ ⟨2, 10, 118, 100, -1, 0⟩).2.x -
          (resolvePair ⟨1, 10, 100, 100, 1, 0⟩ ⟨2, 10, 118, 100, -1, 0⟩).1.x) +
       ((resolvePair ⟨1, 10, 100, 100, 1, 0⟩ ⟨2, 10, 118, 100, -1, 0⟩).2.y -
          (resolvePair ⟨1, 10, 100, 100, 1, 0⟩ ⟨2, 10, 118, 100, -1, 0⟩).1.y) *
         ((resolvePair ⟨1, 10, 100, 100, 1, 0⟩ ⟨2, 10, 118, 100, -1, 0⟩).2.y -
          (resolvePair ⟨1, 10, 100, 100, 1, 0⟩ ⟨2, 10, 118, 100, -1, 0⟩).1.y))
      = 10 + 10 := by
  have h18 : Real.sqrt (((118 : ℝ) - 100) * (118 - 100) + ((100 : ℝ) - 100) * (100 - 100))
      = 18 := by
    rw [show (((118 : ℝ) - 100) * (118 - 100) + ((100 : ℝ) - 100) * (100 - 100))
          = 18 * 18 by norm_num]
    exact Real.sqrt_mul_self (by norm_num)
  exact (C3_tangency ⟨1, 10, 100, 100, 1, 0⟩ ⟨2, 10, 118, 100, -1, 0⟩ 18 h18
    (by norm_num) (by norm_num)).2.2.2.2

/-- **C4.**  For every overlapping pair resolved by `update` (center
distance `0 < d < r_i + r_j`), the post-collision velocities computed by the
rotate–decompose–recombine code equal the reference 1-D elastic-collision
result: each atom's component along the tangent axis is unchanged, and its
component along the collision normal becomes `2·V_com − (old normal
component)`, with `V_com` the `r²`-mass-weighted mean of the two old normal
components. -/
theorem C4_velocity_resolution (ai aj : Atom)
    (hd0 : 0 < centerDist ai aj) (hlt : centerDist ai aj < ai.r + aj.r) :
    dot (vel (resolvePair ai aj).1) (tangentUnit ai aj)
        = dot (vel ai) (tangentUnit ai aj) ∧
    dot (vel (resolvePair ai aj).2) (tangentUnit ai aj)
        = dot (vel aj) (tangentUnit ai aj) ∧
    dot (vel (resolvePair ai aj).1) (normalUnit ai aj)
        = 2 * vCom ai aj - dot (vel ai) (normalUnit ai aj) ∧
    dot (vel (resolvePair ai aj).2) (normalUnit ai aj)
        = 2 * vCom ai aj - dot (vel aj) (normalUnit ai aj) := by
  have hdne : Real.sqrt ((aj.x - ai.x) * (aj.x - ai.x) +
      (aj.y - ai.y) * (aj.y - ai.y)) ≠ 0 := by
    simpa [centerDist] using (ne_of_gt hd0)
  have hlt2 : Real.sqrt ((aj.x - ai.x) * (aj.x - ai.x) +
      (aj.y - ai.y) * (aj.y - ai.y)) < ai.r + aj.r := by
    simpa [centerDist] using hlt
  obtain ⟨hc, hs⟩ := cos_sin_tangent (aj.x - ai.x) (aj.y - ai.y) hdne
  have hc2 : (aj.y - ai.y) / Real.sqrt ((aj.x - ai.x) * (aj.x - ai.x) +
      (aj.y - ai.y) * (aj.y - ai.y))
      = -Real.cos (atan2 (aj.x - ai.x) (-(aj.y - ai.y))) := by
    rw [hc]; ring
  have hcs : Real.cos (atan2 (aj.x - ai.x) (-(aj.y - ai.y))) *
        Real.cos (atan2 (aj.x - ai.x) (-(aj.y - ai.y))) +
      Real.sin (atan2 (aj.x - ai.x) (-(aj.y - ai.y))) *
        Real.sin (atan2 (aj.x - ai.x) (-(aj.y - ai.y))) = 1 := by
    have h := Real.sin_sq_add_cos_sq (atan2 (aj.x - ai.x) (-(aj.y - ai.y)))
    nlinarith [h]
  simp only [resolvePair, if_pos hlt2]
  rw [collideVel_eq (aj.x - ai.x) (aj.y - ai.y) ai aj _ _ _ _ _ _ _
    rfl rfl rfl rfl rfl rfl rfl]
  simp only [dot, vel, tangentUnit, normalUnit, vCom, centerDist]
  rw [← hc, hc2, ← hs]
  set c := Real.cos (atan2 (aj.x - ai.x) (-(aj.y - ai.y))) with hcdef
  set s := Real.sin (atan2 (aj.x - ai.x) (-(aj.y - ai.y))) with hsdef
  refine ⟨?_, ?_, ?_, ?_⟩
  · linear_combination (ai.vx * c + ai.vy * s) * hcs
  · linear_combination (aj.vx * c + aj.vy * s) * hcs
  · linear_combination ((ai.vy * c - ai.vx * s) -
      2 * ((ai.r * ai.r * (ai.vy * c - ai.vx * s) +
        aj.r * aj.r * (aj.vy * c - aj.vx * s)) /
          (ai.r * ai.r + aj.r * aj.r))) * hcs
  · linear_combination ((aj.vy * c - aj.vx * s) -
      2 * ((ai.r * ai.r * (ai.vy * c - ai.vx * s) +
        aj.r * aj.r * (aj.vy * c - aj.vx * s)) /
          (ai.r * ai.r + aj.r * aj.r))) * hcs

/-- Witness for C4: the spec's scenario pair (radii 10, centers 18 apart,
head-on unit velocities). -/
theorem C4_velocity_resolution_witness :
    dot (vel (resolvePair ⟨1, 10, 100, 100, 1, 0⟩ ⟨2, 10, 118, 100, -1, 0⟩).1)
        (tangentUnit ⟨1, 10, 100, 100, 1, 0⟩ ⟨2, 10, 118, 100, -1, 0⟩)
      = dot (vel ⟨1, 10, 100, 100, 1, 0⟩)
          (tangentUnit ⟨1, 10, 100, 100, 1, 0⟩ ⟨2, 10, 118, 100, -1, 0⟩) ∧
    dot (vel (resolvePair ⟨1, 10, 100, 100, 1, 0⟩ ⟨2, 10, 118, 100, -1, 0⟩).2)
        (tangentUnit ⟨1, 10, 100, 100, 1, 0⟩ ⟨2, 10, 118, 100, -1, 0⟩)
      = dot (vel ⟨2, 10, 118, 100, -1, 0⟩)
          (tangentUnit ⟨1, 10, 100, 100, 1, 0⟩ ⟨2, 10, 118, 100, -1, 0⟩) ∧
    dot (vel (resolvePair ⟨1, 10, 100, 100, 1, 0⟩ ⟨2, 10, 118, 100, -1, 0⟩).1)
        (normalUnit ⟨1, 10, 100, 100, 1, 0⟩ ⟨2, 10, 118, 100, -1, 0⟩)
      = 2 * vCom ⟨1, 10, 100, 100, 1, 0⟩ ⟨2, 10, 118, 100, -1, 0⟩ -
          dot (vel ⟨1, 10, 100, 100, 1, 0⟩)
            (normalUnit ⟨1, 10, 100, 100, 1, 0⟩ ⟨2, 10, 118, 100, -1, 0⟩) ∧
    dot (vel (resolvePair ⟨1, 10, 100, 100, 1, 0⟩ ⟨2, 10, 118, 100, -1, 0⟩).2)
        (normalUnit ⟨1, 10, 100, 100, 1, 0⟩ ⟨2, 10, 118, 100, -1, 0⟩)
      = 2 * vCom ⟨1, 10, 100, 100, 1, 0⟩ ⟨2, 10, 118, 100, -1, 0⟩ -
          dot (vel ⟨2, 10, 118, 100, -1, 0⟩)
            (normalUnit ⟨1, 10, 100, 100, 1, 0⟩ ⟨2, 10, 118, 100, -1, 0⟩) := by
  have h18 : centerDist ⟨1, 10, 100, 100, 1, 0⟩ ⟨2, 10, 118, 100, -1, 0⟩ = 18 := by
    simp only [centerDist]
    norm_num
    rw [show (324 : ℝ) = 18 * 18 by norm_num]
    exact Real.sqrt_mul_self (by norm_num)
  exact C4_velocity_resolution ⟨1, 10, 100, 100, 1, 0⟩ ⟨2, 10, 118, 100, -1, 0⟩
    (by rw [h18]; norm_num) (by rw [h18]; norm_num)

/-- **C5.**  For an isolated two-atom collision resolved by `update`'s
velocity-resolution step (overlapping pair, velocities purely along the
collision normal, no tangential component), the total kinetic energy
`m_i·|v_i|² + m_j·|v_j|²` with `m = r²` is unchanged by the resolution. -/
theorem C5_energy (ai aj : Atom)
    (hd0 : 0 < centerDist ai aj) (hlt : centerDist ai aj < ai.r + aj.r)
    (hti : dot (vel ai) (tangentUnit ai aj) = 0)
    (htj : dot (vel aj) (tangentUnit ai aj) = 0) :
    ai.r * ai.r * ((resolvePair ai aj).1.vx * (resolvePair ai aj).1.vx +
        (resolvePair ai aj).1.vy * (resolvePair ai aj).1.vy) +
      aj.r * aj.r * ((resolvePair ai aj).2.vx * (resolvePair ai aj).2.vx +
        (resolvePair ai aj).2.vy * (resolvePair ai aj).2.vy)
      = ai.r * ai.r * (ai.vx * ai.vx + ai.vy * ai.vy) +
        aj.r * aj.r * (aj.vx * aj.vx + aj.vy * aj.vy) := by
  have hsum : 0 < ai.r + aj.r := hd0.trans hlt
  have hm : ai.r * ai.r + aj.r * aj.r ≠ 0 := by nlinarith [sq_nonneg (ai.r - aj.r)]
  have hlt2 : Real.sqrt ((aj.x - ai.x) * (aj.x - ai.x) +
      (aj.y - ai.y) * (aj.y - ai.y)) < ai.r + aj.r := by
    simpa [centerDist] using hlt
  have hcs : Real.cos (atan2 (aj.x - ai.x) (-(aj.y - ai.y))) *
        Real.cos (atan2 (aj.x - ai.x) (-(aj.y - ai.y))) +
      Real.sin (atan2 (aj.x - ai.x) (-(aj.y - ai.y))) *
        Real.sin (atan2 (aj.x - ai.x) (-(aj.y - ai.y))) = 1 := by
    have h := Real.sin_sq_add_cos_sq (atan2 (aj.x - ai.x) (-(aj.y - ai.y)))
    nlinarith [h]
  simp only [resolvePair, if_pos hlt2]
  rw [collideVel_eq (aj.x - ai.x) (aj.y - ai.y) ai aj _ _ _ _ _ _ _
    rfl rfl rfl rfl rfl rfl rfl]
  dsimp only
  set c := Real.cos (atan2 (aj.x - ai.x) (-(aj.y - ai.y))) with hcdef
  set s := Real.sin (atan2 (aj.x - ai.x) (-(aj.y - ai.y))) with hsdef
  set M := ai.r * ai.r + aj.r * aj.r with hMdef
  set w1 := ai.vy * c - ai.vx * s with hw1def
  set w2 := aj.vy * c - aj.vx * s with hw2def
  set V := (ai.r * ai.r * w1 + aj.r * aj.r * w2) / M with hVdef
  have hVM : V * M = ai.r * ai.r * w1 + aj.r * aj.r * w2 := div_mul_cancel₀ _ hm
  linear_combination
    (ai.r * ai.r * ((ai.vx * c + ai.vy * s) * (ai.vx * c + ai.vy * s) +
        (2 * V - w1) * (2 * V - w1)) +
      aj.r * aj.r * ((aj.vx * c + aj.vy * s) * (aj.vx * c + aj.vy * s) +
        (2 * V - w2) * (2 * V - w2)) +
      ai.r * ai.r * (ai.vx * ai.vx + ai.vy * ai.vy) +
      aj.r * aj.r * (aj.vx * aj.vx + aj.vy * aj.vy)) * hcs +
    4 * V * hVM

/-- Witness for C5: head-on pair with radii 10, centers 18 apart, unit
velocities along the x-axis (the collision normal); no tangential
component. -/
theorem C5_energy_witness :
    (10 : ℝ) * 10 * ((resolvePair ⟨1, 10, 100, 100, 1, 0⟩ ⟨2, 10, 118, 100, -1, 0⟩).1.vx *
        (resolvePair ⟨1, 10, 100, 100, 1, 0⟩ ⟨2, 10, 118, 100, -1, 0⟩).1.vx +
      (resolvePair ⟨1, 10, 100, 100, 1, 0⟩ ⟨2, 10, 118, 100, -1, 0⟩).1.vy *
        (resolvePair ⟨1, 10, 100, 100, 1, 0⟩ ⟨2, 10, 118, 100, -1, 0⟩).1.vy) +
    (10 : ℝ) * 10 * ((resolvePair ⟨1, 10, 100, 100, 1, 0⟩ ⟨2, 10, 118, 100, -1, 0⟩).2.vx *
        (resolvePair ⟨1, 10, 100, 100, 1, 0⟩ ⟨2, 10, 118, 100, -1, 0⟩).2.vx +
      (resolvePair ⟨1, 10, 100, 100, 1, 0⟩ ⟨2, 10, 118, 100, -1, 0⟩).2.vy *
        (resolvePair ⟨1, 10, 100, 100, 1, 0⟩ ⟨2, 10, 118, 100, -1, 0⟩).2.vy)
      = (10 : ℝ) * 10 * (1 * 1 + 0 * 0) + (10 : ℝ) * 10 * ((-1) * (-1) + 0 * 0) := by
  have h18 : centerDist ⟨1, 10, 100, 100, 1, 0⟩ ⟨2, 10, 118, 100, -1, 0⟩ = 18 := by
    simp only [centerDist]
    norm_num
    rw [show (324 : ℝ) = 18 * 18 by norm_num]
    exact Real.sqrt_mul_self (by norm_num)
  exact C5_energy ⟨1, 10, 100, 100, 1, 0⟩ ⟨2, 10, 118, 100, -1, 0⟩
    (by rw [h18]; norm_num) (by rw [h18]; norm_num)
    (by norm_num [dot, vel, tangentUnit, centerDist])
    (by norm_num [dot, vel, tangentUnit, centerDist])

/-- Pair resolution never touches radius or color of either atom. -/
theorem resolvePair_frame (ai aj : Atom) :
    (resolvePair ai aj).1.r = ai.r ∧ (resolvePair ai aj).1.color = ai.color ∧
    (resolvePair ai aj).2.r = aj.r ∧ (resolvePair ai aj).2.color = aj.color := by
  simp only [resolvePair]
  split_ifs <;> exact ⟨rfl, rfl, rfl, rfl⟩

/-- The inner pairwise loop preserves radius and color of the threaded atom
and, pointwise, of the tail. -/
theorem resolveWithRest_frame : ∀ (l : List Atom) (ai : Atom),
    ((resolveWithRest ai l).1.r = ai.r ∧
      (resolveWithRest ai l).1.color = ai.color) ∧
    (resolveWithRest ai l).2.map (fun a => (a.r, a.color))
      = l.map (fun a => (a.r, a.color)) := by
  intro l
  induction l with
  | nil => intro ai; exact ⟨⟨rfl, rfl⟩, rfl⟩
  | cons aj tl ih =>
    intro ai
    simp only [resolveWithRest, List.map_cons]
    obtain ⟨⟨h1, h2⟩, h3⟩ := ih (resolvePair ai aj).1
    obtain ⟨k1, k2, k3, k4⟩ := resolvePair_frame ai aj
    refine ⟨⟨?_, ?_⟩, ?_⟩
    · rw [h1, k1]
    · rw [h2, k2]
    · rw [h3, k3, k4]

/-- The outer pairwise loop preserves, pointwise, radius and color. -/
theorem resolveAll_frame (l : List Atom) :
    (resolveAll l).map (fun a => (a.r, a.color))
      = l.map (fun a => (a.r, a.color)) := by
  have key : ∀ (n : ℕ) (l : List Atom), l.length ≤ n →
      (resolveAll l).map (fun a => (a.r, a.color))
        = l.map (fun a => (a.r, a.color)) := by
    intro n
    induction n with
    | zero =>
      intro l hl
      have : l = [] := List.length_eq_zero.1 (Nat.le_zero.1 hl)
      subst this
      simp [resolveAll]
    | succ n ih =>
      intro l hl
      match l with
      | [] => simp [resolveAll]
      | a :: tl =>
        simp only [resolveAll, List.map_cons]
        obtain ⟨⟨h1, h2⟩, h3⟩ := resolveWithRest_frame tl a
        have hlen : (resolveWithRest a tl).2.length = tl.length :=
          resolveWithRest_length a tl
        have htl : tl.length ≤ n := by
          simpa using Nat.succ_le_succ_iff.1 (by simpa using hl)
        have ihq := ih (resolveWithRest a tl).2 (by rw [hlen]; exact htl)
        rw [h1, h2, ihq, h3]
  exact key l.length l le_rfl

/-- **C9.**  One call of `update` changes neither the number of atoms nor
any atom's radius or color: only positions and velocities are mutated. -/
theorem C9_frame (atoms : List Atom) :
    (update atoms).length = atoms.length ∧
    (update atoms).map (fun a => (a.r, a.color))
      = atoms.map (fun a => (a.r, a.color)) := by
  have hmap : (update atoms).map (fun a => (a.r, a.color))
      = atoms.map (fun a => (a.r, a.color)) := by
    rw [update, resolveAll_frame, List.map_map]
    rfl
  refine ⟨?_, hmap⟩
  have := congrArg List.length hmap
  simpa using this

/-- The checked velocity resolution succeeds whenever `m1 + m2 ≠ 0`, and
agrees with the unchecked one. -/
theorem collideVelE_eq (dx dy : ℝ) (ai aj : Atom)
    (hm : ai.r * ai.r + aj.r * aj.r ≠ 0) :
    collideVelE dx dy ai aj = some (collideVel dx dy ai aj) := by
  simp only [collideVelE, collideVel, divE, if_neg hm]
  rfl

/-- The checked pair resolution succeeds whenever `m1 + m2 ≠ 0`: the `norm`
divisor is never zero thanks to the `dist == 0` guard. -/
theorem resolvePairE_eq (ai aj : Atom)
    (hm : ai.r * ai.r + aj.r * aj.r ≠ 0) :
    resolvePairE ai aj = some (resolvePair ai aj) := by
  by_cases hlt : Real.sqrt ((aj.x - ai.x) * (aj.x - ai.x) +
      (aj.y - ai.y) * (aj.y - ai.y)) < ai.r + aj.r
  · by_cases h0 : Real.sqrt ((aj.x - ai.x) * (aj.x - ai.x) +
        (aj.y - ai.y) * (aj.y - ai.y)) = 0
    · simp only [resolvePairE, resolvePair, if_pos hlt, if_pos h0, divE,
        if_neg (one_ne_zero (α := ℝ)),
        collideVelE_eq (aj.x - ai.x) (aj.y - ai.y) ai aj hm, Option.bind]
    · simp only [resolvePairE, resolvePair, if_pos hlt, if_neg h0, divE,
        collideVelE_eq (aj.x - ai.x) (aj.y - ai.y) ai aj hm, Option.bind]
  · simp only [resolvePairE, resolvePair, if_neg hlt]

/-- The checked inner loop succeeds on positive-radius atoms and agrees
with the unchecked one. -/
theorem resolveWithRestE_eq : ∀ (l : List Atom) (ai : Atom), 0 < ai.r →
    (∀ a ∈ l, 0 < a.r) → resolveWithRestE ai l = some (resolveWithRest ai l) := by
  intro l
  induction l with
  | nil => intro ai _ _; rfl
  | cons aj tl ih =>
    intro ai hai hl
    have haj : 0 < aj.r := hl aj (List.mem_cons_self aj tl)
    have hm : ai.r * ai.r + aj.r * aj.r ≠ 0 := ne_of_gt (by nlinarith)
    have htl : ∀ a ∈ tl, 0 < a.r := fun a ha => hl a (List.mem_cons_of_mem _ ha)
    have hp1 : (resolvePair ai aj).1.r = ai.r := (resolvePair_frame ai aj).1
    simp only [resolveWithRestE, resolveWithRest, resolvePairE_eq ai aj hm,
      Option.bind]
    rw [ih (resolvePair ai aj).1 (by rw [hp1]; exact hai) htl]

/-- The checked outer loop succeeds on positive-radius atoms and agrees
with the unchecked one. -/
theorem resolveAllE_eq (l : List Atom) (hl : ∀ a ∈ l, 0 < a.r) :
    resolveAllE l = some (resolveAll l) := by
  have key : ∀ (n : ℕ) (l : List Atom), l.length ≤ n → (∀ a ∈ l, 0 < a.r) →
      resolveAllE l = some (resolveAll l) := by
    intro n
    induction n with
    | zero =>
      intro l hlen _
      have : l = [] := List.length_eq_zero.1 (Nat.le_zero.1 hlen)
      subst this
      simp [resolveAllE, resolveAll]
    | succ n ih =>
      intro l hlen hpos
      match l with
      | [] => simp [resolveAllE, resolveAll]
      | a :: tl =>
        have ha : 0 < a.r := hpos a (List.mem_cons_self a tl)
        have htl : ∀ b ∈ tl, 0 < b.r := fun b hb => hpos b (List.mem_cons_of_mem _ hb)
        have hwr := resolveWithRestE_eq tl a ha htl
        obtain ⟨_, hmap⟩ := resolveWithRest_frame tl a
        have hq2 : ∀ b ∈ (resolveWithRest a tl).2, 0 < b.r := by
          intro b hb
          have hmem : (b.r, b.color) ∈
              (resolveWithRest a tl).2.map (fun a => (a.r, a.color)) :=
            List.mem_map_of_mem _ hb
          rw [hmap] at hmem
          obtain ⟨c, hc, hcb⟩ := List.mem_map.1 hmem
          have hcr : c.r = b.r := congrArg Prod.fst hcb
          rw [← hcr]
          exact htl c hc
        have hlen2 : (resolveWithRest a tl).2.length ≤ n := by
          rw [resolveWithRest_length]
          exact Nat.succ_le_succ_iff.1 (by simpa using hlen)
        have ihq := ih (resolveWithRest a tl).2 hlen2 hq2
        simp only [resolveAllE]
        split
        · next hq =>
          rw [hwr] at hq
          cases hq
        · next q hq =>
          rw [hwr] at hq
          injection hq with hq'
          subst hq'
          rw [ihq]
          simp only [resolveAll]
  exact key l.length l le_rfl hl

/-- **C7.**  For every store of positive-radius atoms, `update` is total:
in the checked semantics, where any division by zero aborts with `none`,
`update` always succeeds and returns the unchecked result — the `norm`
divisor is guarded against `dist == 0` and the mass sum `r_i² + r_j²` is
positive. -/
theorem C7_update_total (atoms : List Atom) (hr : ∀ a ∈ atoms, 0 < a.r) :
    updateE atoms = some (update atoms) := by
  have hpos : ∀ b ∈ atoms.map integrateWall, 0 < b.r := by
    intro b hb
    obtain ⟨a, ha, rfl⟩ := List.mem_map.1 hb
    exact hr a ha
  simp only [updateE, update]
  exact resolveAllE_eq _ hpos

/-- Witness for C7 at a concrete two-atom store. -/
theorem C7_update_total_witness :
    updateE [(⟨1, 10, 600, 100, 0, 0⟩ : Atom), ⟨2, 20, 615, 100, 0, 0⟩]
      = some (update [(⟨1, 10, 600, 100, 0, 0⟩ : Atom), ⟨2, 20, 615, 100, 0, 0⟩]) :=
  C7_update_total [⟨1, 10, 600, 100, 0, 0⟩, ⟨2, 20, 615, 100, 0, 0⟩] (by
    intro a ha
    simp only [List.mem_cons, List.not_mem_nil, or_false] at ha
    rcases ha with rfl | rfl
    · norm_num
    · norm_num)

/-- The record-load loop aborts at the first bad record: if records
`i..i+t-1` parse and record `i+t` (with `t < m`) is missing or malformed,
the result is exit status 1 naming index `i + t`. -/
theorem loadLoop_first_bad (recs : List (Option Atom)) :
    ∀ (m i t : Nat), t < m →
    (∀ s, s < t → ∃ a, recs[i + s]? = some (some a)) →
    (recs[i + t]? = none ∨ recs[i + t]? = some none) →
    loadLoop recs m i = .error ⟨1, i + t⟩ := by
  intro m
  induction m with
  | zero => intro i t ht; omega
  | succ m ih =>
    intro i t ht hgood hbad
    match t with
    | 0 =>
      have hb : recs[i]? = none ∨ recs[i]? = some none := by simpa using hbad
      have hres : loadLoop recs (m + 1) i = .error ⟨1, i⟩ := by
        rcases hb with hb | hb <;> simp [loadLoop, hb]
      simpa using hres
    | t' + 1 =>
      obtain ⟨a, ha⟩ := hgood 0 (Nat.succ_pos t')
      have ha' : recs[i]? = some (some a) := by simpa using ha
      have hrec : loadLoop recs m (i + 1) = .error ⟨1, i + 1 + t'⟩ := by
        apply ih (i + 1) t' (by omega)
        · intro s hs
          obtain ⟨a2, ha2⟩ := hgood (s + 1) (by omega)
          refine ⟨a2, ?_⟩
          have heq : i + 1 + s = i + (s + 1) := by omega
          rw [heq]
          exact ha2
        · have heq : i + 1 + t' = i + (t' + 1) := by omega
          rw [heq]
          exact hbad
      have heq2 : i + 1 + t' = i + (t' + 1) := by omega
      simp only [loadLoop, ha', hrec]
      rw [heq2]

/-- Any error of the random placement loop has exit status 1 and names an
index in range; at that index the loop state had some placed prefix and
draw cursor for which all three placement attempts intersect. -/
theorem placeLoop_error (draws : Nat → Draw) :
    ∀ (m i : Nat) (placed : List Atom) (k : Nat) (f : Fatal),
    placeLoop draws m i placed k = .error f →
    f.code = 1 ∧ i ≤ f.atomIdx ∧ f.atomIdx < i + m ∧
    ∃ placed2 k2, tryPlace draws placed2 k2 = none ∧
      placeLoop draws (i + m - f.atomIdx) f.atomIdx placed2 k2 = .error f := by
  intro m
  induction m with
  | zero =>
    intro i placed k f h
    simp [placeLoop] at h
  | succ m ih =>
    intro i placed k f h
    rcases htry : tryPlace draws placed k with _ | ⟨a2, k2'⟩
    · simp only [placeLoop, htry, Except.error.injEq] at h
      subst h
      dsimp only
      refine ⟨rfl, le_rfl, by omega, placed, k, htry, ?_⟩
      have heq : i + (m + 1) - i = m + 1 := by omega
      rw [heq]
      simp [placeLoop, htry]
    · simp only [placeLoop, htry] at h
      obtain ⟨h1, h2, h3, placed2, k2, ht2, htr⟩ := ih (i + 1) (placed ++ [a2]) k2' f h
      refine ⟨h1, by omega, by omega, placed2, k2, ht2, ?_⟩
      have heq : i + (m + 1) - f.atomIdx = i + 1 + m - f.atomIdx := by omega
      rw [heq]
      exact htr

/-- **C8.**  Every fatal initialization error is modelled as an
`Except.error` (no partial store is retained) with exit status 1 and a
diagnostic naming the offending atom index: in record-load mode
(`argc = 2`) the first malformed or missing record `i < n` aborts with
index `i`; in random mode (`argc = 1`) any abort names an index `i < n`
at which all three placement draws intersected the already placed atoms. -/
theorem C8_init_fatal (n : Nat) (recs : List (Option Atom))
    (draws : Nat → Draw) (buf : List Atom) :
    (∀ i, i < n →
      (∀ j, j < i → ∃ a, recs[j]? = some (some a)) →
      (recs[i]? = none ∨ recs[i]? = some none) →
      init 2 n draws recs buf = .error ⟨1, i⟩) ∧
    (∀ f, init 1 n draws recs buf = .error f →
      f.code = 1 ∧ f.atomIdx < n ∧
      ∃ placed k, tryPlace draws placed k = none ∧
        placeLoop draws (n - f.atomIdx) f.atomIdx placed k = .error f) := by
  constructor
  · intro i hi hgood hbad
    have : loadLoop recs n 0 = .error ⟨1, 0 + i⟩ := by
      apply loadLoop_first_bad recs n 0 i hi
      · intro s hs
        simpa using hgood s hs
      · simpa using hbad
    simpa [init, initLoad] using this
  · intro f hf
    have hf2 : placeLoop draws n 0 [] 0 = .error f := by
      simpa [init, initRandom] using hf
    obtain ⟨h1, _, h3, placed, k, ht, htr⟩ := placeLoop_error draws n 0 [] 0 f hf2
    exact ⟨h1, by omega, placed, k, ht, by simpa using htr⟩

/-- Witness for C8: a two-record load whose second record is malformed
aborts with status 1 naming atom index 1. -/
theorem C8_init_fatal_witness :
    init 2 2 (fun _ => ⟨1, 1, 1, 1, 1, 0⟩)
        [some ⟨0, 1, 1, 1, 0, 0⟩, none] [] = .error ⟨1, 1⟩ :=
  (C8_init_fatal 2 [some ⟨0, 1, 1, 1, 0, 0⟩, none] (fun _ => ⟨1, 1, 1, 1, 1, 0⟩) []).1
    1 (by norm_num)
    (by
      intro j hj
      have hj0 : j = 0 := by omega
      subst hj0
      exact ⟨⟨0, 1, 1, 1, 0, 0⟩, rfl⟩)
    (Or.inr rfl)

/-- **C10.**  With two or more command-line arguments (`argc ≥ 3`),
`number` neither falls back to the default count nor reports a
configuration error: it returns (and prints) `0`; `init` populates nothing
(the allocated buffer is returned untouched), so the run proceeds with an
empty store of zero atoms, on which `update` is a no-op. -/
theorem C10_extra_args (argc n : Nat) (h : 3 ≤ argc)
    (file : Option (Option Int)) (draws : Nat → Draw)
    (recs : List (Option Atom)) (buf : List Atom) :
    number argc file = .ok 0 ∧
    init argc n draws recs buf = .ok buf ∧
    init argc 0 draws recs [] = .ok [] ∧
    update [] = [] := by
  have h1 : argc ≠ 1 := by omega
  have h2 : argc ≠ 2 := by omega
  refine ⟨?_, ?_, ?_, ?_⟩
  · simp [number, h1, h2]
  · simp [init, h1, h2]
  · simp [init, h1, h2]
  · simp [update, resolveAll]

/-- Witness for C10 at `argc = 3`. -/
theorem C10_extra_args_witness :
    number 3 none = .ok 0 ∧
    init 3 5 (fun _ => ⟨1, 1, 1, 1, 1, 0⟩) [] [] = .ok [] ∧
    init 3 0 (fun _ => ⟨1, 1, 1, 1, 1, 0⟩) [] [] = .ok [] ∧
    update [] = [] :=
  C10_extra_args 3 5 (by norm_num) none (fun _ => ⟨1, 1, 1, 1, 1, 0⟩) [] []
